import Mathlib

/-!
Verification of the `troy::Ciphertext` container (src/src/ciphertext.h).

The container is embedded shallowly: `size_t` values become `Nat` with explicit
`% 2 ^ 64` wherever the C++ code performs unchecked machine arithmetic, the
64-bit coefficient words become `Nat` (only compared against 0 and the all-ones
sentinel, never computed with), the backing `HostDynamicArray` becomes a list
(logical contents) plus an allocated-capacity count, and fallible member
functions become `Except`- or `Option TroyError ×`-valued functions.

Function bodies present in the header are translated directly.  The bodies of
`reserveInternal`, `resizeInternal`, `reserve(context, parms_id, size_capacity)`
and `resize(context, parms_id, size)` are only declared in the header, and the
`HostDynamicArray` / `util::mul_safe` helpers come from files outside the
snapshot; those definitions are modelled from the specification and say so in
their doc comments.
-/

namespace Troy

/-- Error taxonomy of the specification: `InvalidArgument`, `Overflow`,
`OutOfRange`, `LogicError`. -/
inductive TroyError where
  | invalidArgument
  | overflow
  | outOfRange
  | logicError
deriving DecidableEq

instance {ε α : Type} [DecidableEq ε] [DecidableEq α] : DecidableEq (Except ε α) :=
  fun x y =>
    match x, y with
    | Except.ok a, Except.ok b => decidable_of_iff (a = b) (by simp)
    | Except.error a, Except.error b => decidable_of_iff (a = b) (by simp)
    | Except.ok _, Except.error _ => isFalse (by simp)
    | Except.error _, Except.ok _ => isFalse (by simp)

/-- One beyond the largest value representable in the address-size type
(`std::size_t` is 64 bits wide here). -/
def SIZE_T_BOUND : Nat := 2 ^ 64

/-- Modelled from the spec: `util::mul_safe` (utils/common.h, outside the
snapshot) — overflow-checked multiplication of two `size_t` values that fails
with `Overflow` instead of wrapping. -/
def mulSafe (a b : Nat) : Except TroyError Nat :=
  if a * b < SIZE_T_BOUND then Except.ok (a * b) else Except.error TroyError.overflow

/-- Modelled from the spec: the three-argument `util::mul_safe(a, b, c)`,
i.e. `mul_safe (mul_safe a b) c`, with both intermediate products
overflow-checked. -/
def mulSafe3 (a b c : Nat) : Except TroyError Nat :=
  if a * b < SIZE_T_BOUND then
    if a * b * c < SIZE_T_BOUND then Except.ok (a * b * c)
    else Except.error TroyError.overflow
  else Except.error TroyError.overflow

/-- The parameter-set identifier `ParmsID`: an opaque equality-comparable fingerprint
(`std::array<std::uint64_t, 4>` in the source). -/
abbrev ParmsID := Nat × Nat × Nat × Nat

/-- The reserved all-zero `parms_id` sentinel meaning unset/invalid. -/
def parmsIDZero : ParmsID := (0, 0, 0, 0)

/-- Modelled from the spec: `util::HostDynamicArray<uint64_t>` (outside the
snapshot) — an owned contiguous array of 64-bit words with independent logical
size (`data.length`) and allocated capacity (`cap`). -/
structure HostDynamicArray where
  data : List Nat
  cap : Nat
deriving DecidableEq

/-- The constant `SEAL_CIPHERTEXT_SIZE_MIN` (utils/defines.h, outside the snapshot); the
spec fixes the scheme minimum size at 2. -/
def SEAL_CIPHERTEXT_SIZE_MIN : Nat := 2

/-- The reserved all-ones 64-bit seed sentinel `0xFFFFFFFFFFFFFFFFULL`. -/
def SEED_MARKER : Nat := 0xFFFFFFFFFFFFFFFF

/-- The state of a `troy::Ciphertext`: the private members declared at the end
of the class (lines 677-691 of the header), with their default member
initializers mirrored in `Ciphertext.default` below.  `scale_` (a C++ `double`)
is modelled as a rational: the container only ever stores and reports it,
never computes with it. -/
structure Ciphertext where
  parms_id_ : ParmsID
  is_ntt_form_ : Bool
  size_ : Nat
  poly_modulus_degree_ : Nat
  coeff_modulus_size_ : Nat
  scale_ : ℚ
  correction_factor_ : Nat
  data_ : HostDynamicArray
deriving DecidableEq

/-- The default constructor `Ciphertext() : data_() {}`: every member keeps its
default initializer and the backing array is empty with no allocation. -/
def Ciphertext.default : Ciphertext :=
  ⟨parmsIDZero, false, 0, 0, 0, 1, 1, ⟨[], 0⟩⟩

/-- The per-polynomial word count `poly_modulus_degree_ * coeff_modulus_size_`
(the exact product, without machine truncation; call sites that wrap take the
remainder explicitly). -/
def Ciphertext.polyUint64Count (c : Ciphertext) : Nat :=
  c.poly_modulus_degree_ * c.coeff_modulus_size_

/-- Member `Ciphertext::sizeCapacity()` (lines 422-426): computes
`poly_modulus_degree_ * coeff_modulus_size_` with a plain unchecked `size_t`
multiplication — hence the explicit wrap modulo `2 ^ 64` — and returns
`data_.capacity() / poly_uint64_count`, or 0 when the (wrapped) product is 0.
The function is `noexcept` and cannot report overflow. -/
def Ciphertext.sizeCapacity (c : Ciphertext) : Nat :=
  if (c.poly_modulus_degree_ * c.coeff_modulus_size_) % SIZE_T_BOUND = 0 then 0
  else c.data_.cap / ((c.poly_modulus_degree_ * c.coeff_modulus_size_) % SIZE_T_BOUND)

/-- Member `Ciphertext::data(std::size_t poly_index)` (lines 321-333 and the const
variant 345-357): computes `mul_safe(poly_modulus_degree_,
coeff_modulus_size_)`, returns a null pointer when that product is 0, fails
`OutOfRange` when `poly_index >= size_`, and otherwise returns the pointer
`data_.begin() + mul_safe(poly_index, poly_uint64_count)`; the result is
modelled as the word offset from the start of the buffer (`none` standing for
the null pointer). -/
def Ciphertext.dataAt (c : Ciphertext) (poly_index : Nat) : Except TroyError (Option Nat) :=
  match mulSafe c.poly_modulus_degree_ c.coeff_modulus_size_ with
  | Except.error e => Except.error e
  | Except.ok poly_uint64_count =>
    if poly_uint64_count = 0 then Except.ok none
    else if poly_index ≥ c.size_ then Except.error TroyError.outOfRange
    else
      match mulSafe poly_index poly_uint64_count with
      | Except.error e => Except.error e
      | Except.ok off => Except.ok (some off)

/-- Member `Ciphertext::operator[](std::size_t coeff_index)` (lines 369-387), which
delegates to `data_.at(coeff_index)`.  Modelled from the spec for the missing
`HostDynamicArray::at`: a bounds-checked element read that fails `OutOfRange`
when the index is at or past the logical buffer length. -/
def Ciphertext.coeffAt (c : Ciphertext) (coeff_index : Nat) : Except TroyError Nat :=
  if h : coeff_index < c.data_.data.length then
    Except.ok (c.data_.data.get ⟨coeff_index, h⟩)
  else Except.error TroyError.outOfRange

/-- Writing one coefficient word of the logical buffer in place (through the
mutable `operator[]` / `data()` pointers); metadata and capacity are
untouched. -/
def Ciphertext.writeCoeff (c : Ciphertext) (j v : Nat) : Ciphertext :=
  { c with data_ := ⟨c.data_.data.set j v, c.data_.cap⟩ }

/-- Member `Ciphertext::isTransparent()` (lines 435-440):
`!data_.size() || size_ < SEAL_CIPHERTEXT_SIZE_MIN ||
 std::all_of(data(1), data_.cend(), isZero)`.
When the first two disjuncts fail, the ciphertext has `size_ ≥ 2` and a
nonempty buffer, so `data(1)` is the pointer at word offset
`poly_modulus_degree_ * coeff_modulus_size_` (its checked multiplication
cannot overflow for a well-formed buffer of length `size_ * N * K < 2 ^ 64`),
and the scan runs from there to the end of the logical buffer. -/
def Ciphertext.isTransparent (c : Ciphertext) : Bool :=
  (c.data_.data.length == 0) || decide (c.size_ < SEAL_CIPHERTEXT_SIZE_MIN) ||
    (c.data_.data.drop c.polyUint64Count).all (fun x => x == 0)

/-- Member `Ciphertext::hasSeedMarker()` (lines 672-675):
`(data_.size() && (size_ == 2)) ? (data(1)[0] == 0xFFFFFFFFFFFFFFFFULL) : false`.
The read `data(1)[0]` is the word at flat offset
`poly_modulus_degree_ * coeff_modulus_size_`, modelled with `List.getD`. -/
def Ciphertext.hasSeedMarker (c : Ciphertext) : Bool :=
  if c.data_.data.length ≠ 0 ∧ c.size_ = 2 then
    c.data_.data.getD c.polyUint64Count 0 == SEED_MARKER
  else false

/-- Member `Ciphertext::release()` (lines 260-270): resets every member to its
default-initialized value and frees the backing buffer
(`data_.release()` — modelled from the spec as leaving an empty array with no
allocation). -/
def Ciphertext.release (c : Ciphertext) : Ciphertext :=
  { c with
    parms_id_ := parmsIDZero
    is_ntt_form_ := false
    size_ := 0
    poly_modulus_degree_ := 0
    coeff_modulus_size_ := 0
    scale_ := 1
    correction_factor_ := 1
    data_ := ⟨[], 0⟩ }

/-- Modelled from the spec: the body of `Ciphertext::reserveInternal` is only
declared in the header.  Per spec section 4.1 and section 7: validate first
(`InvalidArgument` when the capacity is below the scheme minimum 2, `Overflow`
when `capacity * N * K` overflows, both before any mutation); on success,
reallocate when the computed allocation exceeds the current one (otherwise
reuse the buffer), keep the first `min(new allocation, old logical length)`
words, and update `degree`, `modulus_count`.  The spec leaves the
`capacity < size` policy open; the clamp `size_ := min capacity size_` is
modelled, matching the buffer truncation. -/
def Ciphertext.reserveInternal (c : Ciphertext) (size_capacity N K : Nat) :
    Option TroyError × Ciphertext :=
  if size_capacity < SEAL_CIPHERTEXT_SIZE_MIN then (some TroyError.invalidArgument, c)
  else
    match mulSafe3 size_capacity N K with
    | Except.error e => (some e, c)
    | Except.ok new_data_capacity =>
      (none,
        { c with
          size_ := min size_capacity c.size_
          poly_modulus_degree_ := N
          coeff_modulus_size_ := K
          data_ := ⟨c.data_.data.take (min new_data_capacity c.data_.data.length),
            max c.data_.cap new_data_capacity⟩ })

/-- Modelled from the spec: the body of `Ciphertext::resizeInternal` is only
declared in the header.  Per spec section 4.1: fail `InvalidArgument` when
`new_size < 2` and `Overflow` when `new_size * N * K` overflows, both before
any mutation; on success set the logical buffer length to `new_size * N * K`
(growing the allocation if needed, preserving the existing prefix and
zero-initializing newly exposed words; shrinking keeps the prefix), and set
`size`, `degree`, `modulus_count`. -/
def Ciphertext.resizeInternal (c : Ciphertext) (new_size N K : Nat) :
    Option TroyError × Ciphertext :=
  if new_size < SEAL_CIPHERTEXT_SIZE_MIN then (some TroyError.invalidArgument, c)
  else
    match mulSafe3 new_size N K with
    | Except.error e => (some e, c)
    | Except.ok new_data_size =>
      (none,
        { c with
          size_ := new_size
          poly_modulus_degree_ := N
          coeff_modulus_size_ := K
          data_ := ⟨c.data_.data.take new_data_size ++
              List.replicate (new_data_size - c.data_.data.length) 0,
            max c.data_.cap new_data_size⟩ })

/-- The parameter registry (`SEALContext`, external collaborator):
lookup-by-identifier returning the `(degree, modulus_count)` pair of a known
parameter set, plus the default/highest identifier. -/
structure SEALContext where
  lookup : ParmsID → Option (Nat × Nat)
  firstParmsID : ParmsID

/-- Modelled from the spec: `Ciphertext::reserve(context, parms_id,
size_capacity)` (declared at line 158) — look up `(N, K)` for `parms_id`
(failing `InvalidArgument` when unknown), run the internal reservation, and on
success record `parms_id`; any failure leaves the container untouched. -/
def Ciphertext.reserve (ctx : SEALContext) (parms_id : ParmsID) (size_capacity : Nat)
    (c : Ciphertext) : Option TroyError × Ciphertext :=
  match ctx.lookup parms_id with
  | none => (some TroyError.invalidArgument, c)
  | some (N, K) =>
    match c.reserveInternal size_capacity N K with
    | (some e, _) => (some e, c)
    | (none, cNew) => (none, { cNew with parms_id_ := parms_id })

/-- Modelled from the spec: `Ciphertext::resize(context, parms_id, size)`
(declared at line 212) — look up `(N, K)` for `parms_id` (failing
`InvalidArgument` when unknown), run the internal resize, and on success
record `parms_id`; any failure leaves the container untouched. -/
def Ciphertext.resize (ctx : SEALContext) (parms_id : ParmsID) (new_size : Nat)
    (c : Ciphertext) : Option TroyError × Ciphertext :=
  match ctx.lookup parms_id with
  | none => (some TroyError.invalidArgument, c)
  | some (N, K) =>
    match c.resizeInternal new_size N K with
    | (some e, _) => (some e, c)
    | (none, cNew) => (none, { cNew with parms_id_ := parms_id })

/-- Member `Ciphertext::reserve(std::size_t size_capacity)` (lines 186-191): the
no-context overload forwards the current `poly_modulus_degree_` and
`coeff_modulus_size_` to the internal reservation. -/
def Ciphertext.reserveCur (size_capacity : Nat) (c : Ciphertext) :
    Option TroyError × Ciphertext :=
  c.reserveInternal size_capacity c.poly_modulus_degree_ c.coeff_modulus_size_

/-- Member `Ciphertext::resize(std::size_t size)` (lines 248-253): the no-context
overload forwards the current `poly_modulus_degree_` and
`coeff_modulus_size_` to the internal resize. -/
def Ciphertext.resizeCur (new_size : Nat) (c : Ciphertext) :
    Option TroyError × Ciphertext :=
  c.resizeInternal new_size c.poly_modulus_degree_ c.coeff_modulus_size_

/-- The moved-from source of `Ciphertext(Ciphertext &&source) = default`
(line 141): the defaulted move constructor copies every scalar member
unchanged and moves `data_`; modelled from the spec for the missing
`HostDynamicArray` move, transferring buffer ownership leaves the source
array empty with no allocation. -/
def Ciphertext.moveSource (c : Ciphertext) : Ciphertext :=
  { c with data_ := ⟨[], 0⟩ }

/-- States reachable through the container's lifecycle operations:
default construction, reserve and resize (context-directed and current-
parameter overloads) and release.  Copying produces an identical state and
needs no constructor of its own. -/
inductive Reachable : Ciphertext → Prop where
  | base : Reachable Ciphertext.default
  | reserveStep (ctx : SEALContext) (pid : ParmsID) (cap : Nat) {c : Ciphertext} :
      Reachable c → Reachable (Ciphertext.reserve ctx pid cap c).2
  | resizeStep (ctx : SEALContext) (pid : ParmsID) (n : Nat) {c : Ciphertext} :
      Reachable c → Reachable (Ciphertext.resize ctx pid n c).2
  | reserveCurStep (cap : Nat) {c : Ciphertext} :
      Reachable c → Reachable (Ciphertext.reserveCur cap c).2
  | resizeCurStep (n : Nat) {c : Ciphertext} :
      Reachable c → Reachable (Ciphertext.resizeCur n c).2
  | releaseStep {c : Ciphertext} : Reachable c → Reachable c.release

/-- Well-formedness of a ciphertext state: the logical buffer holds exactly
`size * degree * modulus_count` words, the allocation is at least that long,
and that word count is representable in `size_t` (it sizes a real
allocation). -/
def Ciphertext.wf (c : Ciphertext) : Prop :=
  c.data_.data.length = c.size_ * c.polyUint64Count ∧
  c.data_.data.length ≤ c.data_.cap ∧
  c.size_ * c.polyUint64Count < SIZE_T_BOUND

instance (c : Ciphertext) : Decidable c.wf := by
  unfold Ciphertext.wf
  infer_instance

/-! Concrete states used by the witnesses: a size-2 ciphertext for degree 8
with 2 moduli (buffer of 32 words), a seed-pending variant of it, a state
whose word-count product overflows 64 bits, and two small registries. -/

/-- A size-2 ciphertext for `N = 8`, `K = 2`: 32 zero words, capacity 32. -/
def c16 : Ciphertext := ⟨parmsIDZero, false, 2, 8, 2, 1, 1, ⟨List.replicate 32 0, 32⟩⟩

/-- The seed-pending variant of `c16`: the first residue word of the second
polynomial (flat offset 16) holds the all-ones sentinel. -/
def cSeed : Ciphertext :=
  ⟨parmsIDZero, false, 2, 8, 2, 1, 1, ⟨(List.replicate 32 0).set 16 SEED_MARKER, 32⟩⟩

/-- A state whose `degree * modulus_count` product exceeds `2 ^ 64`:
`2 ^ 33 * (2 ^ 31 + 1) = 2 ^ 64 + 2 ^ 33` wraps to `2 ^ 33` in `size_t`. -/
def cBig : Ciphertext := ⟨parmsIDZero, false, 2, 2 ^ 33, 2 ^ 31 + 1, 1, 1, ⟨[], 2 ^ 34⟩⟩

/-- A registry mapping one identifier to the degenerate parameter pair
`(2 ^ 32, 2 ^ 32)`, whose product with any capacity at least 2 overflows. -/
def ctxBig : SEALContext :=
  ⟨fun pid => if pid = (1, 0, 0, 0) then some (2 ^ 32, 2 ^ 32) else none, (1, 0, 0, 0)⟩

/-- A registry mapping one identifier to degree 8 with 2 moduli. -/
def ctx82 : SEALContext :=
  ⟨fun pid => if pid = (2, 0, 0, 0) then some (8, 2) else none, (2, 0, 0, 0)⟩

/-! Shared list lemmas. -/

lemma all_drop_iff (l : List Nat) (n : Nat) :
    ((l.drop n).all (fun x => x == 0) = true) ↔ ∀ j, n ≤ j → l.getD j 0 = 0 := by
  rw [List.all_eq_true]
  constructor
  · intro H j hn
    by_cases hj : j < l.length
    · have hd : j - n < (l.drop n).length := by rw [List.length_drop]; omega
      have hz := H _ (List.getElem_mem hd)
      have hx : n + (j - n) < l.length := by omega
      have he : (l.drop n)[j - n] = l[n + (j - n)] := List.getElem_drop l
      have hnj : n + (j - n) = j := by omega
      have he2 : l[n + (j - n)] = l[j] := by simp only [hnj]
      rw [List.getD_eq_getElem l 0 hj, ← he2, ← he]
      simpa using hz
    · exact List.getD_eq_default l 0 (by omega)
  · intro H x hx
    obtain ⟨i, hi, rfl⟩ := List.mem_iff_getElem.mp hx
    have hi2 : i < l.length - n := by rw [← List.length_drop]; exact hi
    have hx2 : n + i < l.length := by omega
    have he : (l.drop n)[i] = l[n + i] := List.getElem_drop l
    have hz := H (n + i) (by omega)
    rw [List.getD_eq_getElem l 0 hx2] at hz
    simp [he, hz]

lemma drop_set_of_lt (l : List Nat) (j n v : Nat) (h : j < n) :
    (l.set j v).drop n = l.drop n := by
  rw [List.drop_set, if_pos h]

/-- Unconditional characterization of `isTransparent`: the buffer is empty, or
the size is below 2, or every word from flat offset
`poly_modulus_degree_ * coeff_modulus_size_` on is zero. -/
lemma transparent_iff (c : Ciphertext) :
    c.isTransparent = true ↔
      (c.data_.data.length = 0 ∨ c.size_ < 2 ∨
        ∀ j, c.polyUint64Count ≤ j → c.data_.data.getD j 0 = 0) := by
  unfold Ciphertext.isTransparent
  rw [Bool.or_eq_true, Bool.or_eq_true, all_drop_iff]
  simp [SEAL_CIPHERTEXT_SIZE_MIN, or_assoc]

/-- Characterization of `hasSeedMarker` on well-formed states: the size is 2
and the word at flat offset `poly_modulus_degree_ * coeff_modulus_size_`
exists and holds the all-ones sentinel. -/
lemma seedMarker_iff (c : Ciphertext) (hwf : c.wf) :
    c.hasSeedMarker = true ↔
      (c.size_ = 2 ∧ ∃ h : c.polyUint64Count < c.data_.data.length,
        c.data_.data.get ⟨c.polyUint64Count, h⟩ = SEED_MARKER) := by
  obtain ⟨hlen, -, -⟩ := hwf
  unfold Ciphertext.hasSeedMarker
  by_cases hcond : c.data_.data.length ≠ 0 ∧ c.size_ = 2
  · rw [if_pos hcond]
    obtain ⟨hne, hs⟩ := hcond
    have hk : 0 < c.polyUint64Count := by
      by_contra hk0
      have hz : c.polyUint64Count = 0 := by omega
      rw [hz, Nat.mul_zero] at hlen
      exact hne hlen
    have hl : c.polyUint64Count < c.data_.data.length := by
      rw [hlen, hs]; omega
    rw [List.getD_eq_getElem _ 0 hl]
    constructor
    · intro h
      refine ⟨hs, hl, ?_⟩
      rw [List.get_eq_getElem]
      exact beq_iff_eq.mp h
    · rintro ⟨-, hx, h3⟩
      rw [List.get_eq_getElem] at h3
      exact beq_iff_eq.mpr h3
  · rw [if_neg hcond]
    constructor
    · intro h
      simp at h
    · rintro ⟨hs, hx, -⟩
      exact absurd ⟨by omega, hs⟩ hcond

/-- Claim C1: `isTransparent()` returns true iff the buffer is empty, or the
size is below the scheme minimum 2, or every coefficient from flat offset
`degree * modulus_count` to the end of the logical buffer is zero; writing a
single nonzero coefficient at a flat index at or past that offset makes it
false, and writes confined to polynomial index 0 never change the result. -/
theorem isTransparent_spec (c : Ciphertext) (hwf : c.wf) :
    (c.isTransparent = true ↔
      (c.data_.data.length = 0 ∨ c.size_ < 2 ∨
        ∀ j, c.polyUint64Count ≤ j → c.data_.data.getD j 0 = 0)) ∧
    (∀ j v, c.polyUint64Count ≤ j → j < c.data_.data.length → v ≠ 0 →
      (c.writeCoeff j v).isTransparent = false) ∧
    (∀ j v, j < c.polyUint64Count →
      (c.writeCoeff j v).isTransparent = c.isTransparent) := by
  obtain ⟨hlen, -, -⟩ := hwf
  refine ⟨transparent_iff c, ?_, ?_⟩
  · intro j v hnk hj hv
    rw [Bool.eq_false_iff]
    intro hb
    have hdata : (c.writeCoeff j v).data_.data = c.data_.data.set j v := rfl
    rcases (transparent_iff _).mp hb with h0 | h1 | h2
    · rw [hdata, List.length_set] at h0
      omega
    · have hsz : (c.writeCoeff j v).size_ = c.size_ := rfl
      rw [hsz] at h1
      have hk : 0 < c.polyUint64Count := by
        rcases Nat.eq_zero_or_pos c.polyUint64Count with h | h
        · rw [hlen, h] at hj
          omega
        · exact h
      have : c.size_ * c.polyUint64Count ≤ 1 * c.polyUint64Count :=
        Nat.mul_le_mul_right _ (by omega)
      rw [hlen] at hj
      omega
    · have hjs : j < (c.data_.data.set j v).length := by rw [List.length_set]; exact hj
      have h3 := h2 j hnk
      rw [hdata, List.getD_eq_getElem _ 0 hjs] at h3
      rw [List.getElem_set_self hjs] at h3
      exact hv h3
  · intro j v hj
    have hdata : (c.writeCoeff j v).data_.data = c.data_.data.set j v := rfl
    have hsz : (c.writeCoeff j v).size_ = c.size_ := rfl
    have hnk : (c.writeCoeff j v).polyUint64Count = c.polyUint64Count := rfl
    unfold Ciphertext.isTransparent
    rw [hdata, hsz, hnk, List.length_set, drop_set_of_lt _ _ _ _ hj]

/-- Witness for C1 at a concrete well-formed state: `c16` has degree 8 and
2 moduli, so flat offset 16 starts the second polynomial; writing 7 there
makes the ciphertext non-transparent, while writing inside the first
polynomial (offset 3) leaves the verdict unchanged. -/
theorem isTransparent_spec_w :
    c16.wf ∧ (c16.writeCoeff 16 7).isTransparent = false ∧
      (c16.writeCoeff 3 9).isTransparent = c16.isTransparent := by
  have h := isTransparent_spec c16 (by decide)
  exact ⟨by decide, h.2.1 16 7 (by decide) (by decide) (by decide), h.2.2 3 9 (by decide)⟩

/-- Claim C3: `release()` always succeeds, resets the parameter identifier to
the zero sentinel, the transform-domain flag to false, size, degree and
modulus count to 0, scale to 1.0, the correction factor to 1, frees the
backing buffer, and is idempotent. -/
theorem release_spec (c : Ciphertext) :
    c.release.parms_id_ = parmsIDZero ∧ c.release.is_ntt_form_ = false ∧
    c.release.size_ = 0 ∧ c.release.poly_modulus_degree_ = 0 ∧
    c.release.coeff_modulus_size_ = 0 ∧ c.release.scale_ = 1 ∧
    c.release.correction_factor_ = 1 ∧ c.release.data_ = ⟨[], 0⟩ ∧
    c.release.release = c.release :=
  ⟨rfl, rfl, rfl, rfl, rfl, rfl, rfl, rfl, rfl⟩

/-- Claim C4: `hasSeedMarker()` returns true iff the size equals 2 and the
first residue word of the second polynomial — the coefficient at flat offset
`degree * modulus_count` — equals the reserved all-ones 64-bit sentinel. -/
theorem hasSeedMarker_spec (c : Ciphertext) (hwf : c.wf) :
    c.hasSeedMarker = true ↔
      (c.size_ = 2 ∧ ∃ h : c.polyUint64Count < c.data_.data.length,
        c.data_.data.get ⟨c.polyUint64Count, h⟩ = SEED_MARKER) :=
  seedMarker_iff c hwf

/-- Witness for C4: `cSeed` has size 2 and the sentinel at flat offset 16, and
the marker is reported. -/
theorem hasSeedMarker_spec_w : cSeed.hasSeedMarker = true :=
  (hasSeedMarker_spec cSeed (by decide)).mpr ⟨rfl, by decide, by decide⟩

/-- Claim C9: a seed-pending ciphertext is never classified as transparent —
when `hasSeedMarker()` is true, the all-ones sentinel sits in the scanned
region, so `isTransparent()` is false. -/
theorem seedMarker_not_transparent (c : Ciphertext) (hwf : c.wf)
    (hseed : c.hasSeedMarker = true) : c.isTransparent = false := by
  obtain ⟨hsize, hlt, hget⟩ := (seedMarker_iff c hwf).mp hseed
  rw [Bool.eq_false_iff]
  intro hb
  rcases (transparent_iff c).mp hb with h0 | h1 | h2
  · omega
  · omega
  · have h3 := h2 c.polyUint64Count (le_refl _)
    rw [List.getD_eq_getElem _ 0 hlt] at h3
    rw [List.get_eq_getElem] at hget
    rw [h3] at hget
    exact (by decide : SEED_MARKER ≠ 0) hget.symm

/-- Witness for C9: the concrete seed-pending state `cSeed` is not
transparent. -/
theorem seedMarker_not_transparent_w : cSeed.isTransparent = false :=
  seedMarker_not_transparent cSeed (by decide) (by decide)

/-- Claim C10: a default-constructed ciphertext has size 0, degree 0, modulus
count 0, capacity 0, the zero parameter identifier, NTT flag false, scale 1.0
and correction factor 1; it is transparent and carries no seed marker. -/
theorem defaultCiphertext_spec :
    Ciphertext.default.size_ = 0 ∧ Ciphertext.default.poly_modulus_degree_ = 0 ∧
    Ciphertext.default.coeff_modulus_size_ = 0 ∧ Ciphertext.default.sizeCapacity = 0 ∧
    Ciphertext.default.parms_id_ = parmsIDZero ∧ Ciphertext.default.is_ntt_form_ = false ∧
    Ciphertext.default.scale_ = 1 ∧ Ciphertext.default.correction_factor_ = 1 ∧
    Ciphertext.default.isTransparent = true ∧ Ciphertext.default.hasSeedMarker = false :=
  ⟨rfl, rfl, rfl, by decide, rfl, rfl, rfl, rfl, by decide, by decide⟩

/-- Claim C7: flat coefficient access through `operator[]` fails `OutOfRange`
exactly when the index is at or past `size * degree * modulus_count`, and
otherwise returns the word at that flat index of the logical buffer. -/
theorem coeffAt_spec (c : Ciphertext) (hwf : c.wf) (j : Nat) :
    (j < c.size_ * c.polyUint64Count → c.coeffAt j = Except.ok (c.data_.data.getD j 0)) ∧
    (c.size_ * c.polyUint64Count ≤ j → c.coeffAt j = Except.error TroyError.outOfRange) := by
  obtain ⟨hlen, -, -⟩ := hwf
  constructor
  · intro hj
    have hl : j < c.data_.data.length := by rw [hlen]; exact hj
    unfold Ciphertext.coeffAt
    rw [dif_pos hl, List.getD_eq_getElem _ 0 hl, List.get_eq_getElem]
  · intro hj
    have hl : ¬j < c.data_.data.length := by rw [hlen]; omega
    unfold Ciphertext.coeffAt
    rw [dif_neg hl]

/-- Witness for C7 at `c16` (32 logical words): index 31 is readable, index 32
fails `OutOfRange`. -/
theorem coeffAt_spec_w :
    c16.coeffAt 31 = Except.ok 0 ∧ c16.coeffAt 32 = Except.error TroyError.outOfRange :=
  ⟨((coeffAt_spec c16 (by decide) 31).1 (by decide)).trans (by decide),
    (coeffAt_spec c16 (by decide) 32).2 (by decide)⟩

/-! Characterizations of the checked multiplications. -/

lemma mulSafe_lt {a b : Nat} (h : a * b < SIZE_T_BOUND) : mulSafe a b = Except.ok (a * b) := by
  unfold mulSafe
  rw [if_pos h]

lemma mulSafe_ge {a b : Nat} (h : SIZE_T_BOUND ≤ a * b) :
    mulSafe a b = Except.error TroyError.overflow := by
  unfold mulSafe
  rw [if_neg (Nat.not_lt.mpr h)]

lemma mulSafe3_eq_ok {a b c v : Nat} (h : mulSafe3 a b c = Except.ok v) :
    v = a * b * c ∧ a * b < SIZE_T_BOUND ∧ a * b * c < SIZE_T_BOUND := by
  unfold mulSafe3 at h
  by_cases h1 : a * b < SIZE_T_BOUND
  · rw [if_pos h1] at h
    by_cases h2 : a * b * c < SIZE_T_BOUND
    · rw [if_pos h2] at h
      cases h
      exact ⟨rfl, h1, h2⟩
    · rw [if_neg h2] at h
      cases h
  · rw [if_neg h1] at h
    cases h

lemma mulSafe3_of_overflow {a b c : Nat} (h : SIZE_T_BOUND ≤ a * b * c) :
    mulSafe3 a b c = Except.error TroyError.overflow := by
  unfold mulSafe3
  by_cases h1 : a * b < SIZE_T_BOUND
  · rw [if_pos h1, if_neg (Nat.not_lt.mpr h)]
  · rw [if_neg h1]

lemma mulSafe3_of_lt {a b c : Nat} (h1 : a * b < SIZE_T_BOUND)
    (h2 : a * b * c < SIZE_T_BOUND) : mulSafe3 a b c = Except.ok (a * b * c) := by
  unfold mulSafe3
  rw [if_pos h1, if_pos h2]

/-- Claim C6, counterexample to the claim as stated: on a default-constructed
ciphertext the polynomial index 0 is at or past the size (0), yet `data(0)`
does not fail `OutOfRange` — the `degree * modulus_count == 0` check comes
first and yields the null result. -/
theorem dataAt_nullFirst_cex :
    Ciphertext.default.size_ ≤ 0 ∧
    Ciphertext.dataAt Ciphertext.default 0 = Except.ok none ∧
    Ciphertext.dataAt Ciphertext.default 0 ≠ Except.error TroyError.outOfRange :=
  ⟨le_refl 0, by decide, by decide⟩

/-- Claim C6 as amended: `data(i)` first checks `degree * modulus_count`; when
that product is 0 it returns the null result for every index i, even i at or
past the size; otherwise it fails `OutOfRange` exactly when i is at or past
the size, and for i below the size returns the start of polynomial i, located
`i * degree * modulus_count` words past the start of the buffer (the product
hypotheses express that the checked multiplications do not overflow, which
holds for any buffer that physically fits in memory). -/
theorem dataAt_spec (c : Ciphertext) (i : Nat) :
    (c.polyUint64Count = 0 → c.dataAt i = Except.ok none) ∧
    (0 < c.polyUint64Count → c.polyUint64Count < SIZE_T_BOUND → c.size_ ≤ i →
      c.dataAt i = Except.error TroyError.outOfRange) ∧
    (0 < c.polyUint64Count → c.polyUint64Count < SIZE_T_BOUND → i < c.size_ →
      i * c.polyUint64Count < SIZE_T_BOUND →
      c.dataAt i = Except.ok (some (i * c.polyUint64Count))) := by
  have hpc : c.polyUint64Count = c.poly_modulus_degree_ * c.coeff_modulus_size_ := rfl
  refine ⟨?_, ?_, ?_⟩
  · intro h0
    rw [hpc] at h0
    unfold Ciphertext.dataAt
    simp only [mulSafe_lt (show c.poly_modulus_degree_ * c.coeff_modulus_size_ < SIZE_T_BOUND by
      rw [h0]; decide)]
    rw [if_pos h0]
  · intro hpos hlt hge
    rw [hpc] at hpos hlt
    unfold Ciphertext.dataAt
    simp only [mulSafe_lt hlt]
    rw [if_neg (by omega), if_pos (by omega)]
  · intro hpos hlt hi hprod
    rw [hpc] at hpos hlt hprod
    unfold Ciphertext.dataAt
    simp only [mulSafe_lt hlt]
    rw [if_neg (by omega), if_neg (by omega)]
    simp only [mulSafe_lt hprod]
    rw [hpc]

/-- Witness for amended C6, matching the spec's concrete scenario: for
degree 8 and 2 moduli at size 2, polynomial index 1 starts exactly 16 words
past the start of the buffer, and index 2 is out of range. -/
theorem dataAt_spec_w :
    Ciphertext.dataAt c16 1 = Except.ok (some 16) ∧
    Ciphertext.dataAt c16 2 = Except.error TroyError.outOfRange :=
  ⟨((dataAt_spec c16 1).2.2 (by decide) (by decide) (by decide) (by decide)).trans (by decide),
    (dataAt_spec c16 2).2.1 (by decide) (by decide) (by decide)⟩

/-- Claim C5, counterexample to the claim as stated: at a state whose
`degree * modulus_count` product (2 ^ 33 times 2 ^ 31 + 1 = 2 ^ 64 + 2 ^ 33)
exceeds the addressable range, `sizeCapacity()` does not fail with `Overflow`:
its unchecked `size_t` multiply wraps to 2 ^ 33 and the function silently
returns 2 ^ 34 / 2 ^ 33 = 2, although the quotient by the true product is 0. -/
theorem sizeCapacity_unchecked_cex :
    SIZE_T_BOUND ≤ cBig.poly_modulus_degree_ * cBig.coeff_modulus_size_ ∧
    Ciphertext.sizeCapacity cBig = 2 ∧
    cBig.data_.cap / (cBig.poly_modulus_degree_ * cBig.coeff_modulus_size_) = 0 :=
  ⟨by decide, by decide, by decide⟩

/-- Claim C5 as amended: the capacity and index-to-offset computations of
`reserve`, `resize` and the polynomial accessor `data()` are overflow-checked
and fail with `Overflow`; `sizeCapacity()`, by contrast, computes
`degree * modulus_count` with an unchecked machine multiplication that wraps
modulo 2 ^ 64 and silently returns a value (at the concrete overflowing state
`cBig` it returns 2 without any failure). -/
theorem overflowChecks_spec :
    (∀ (c : Ciphertext) (i : Nat),
      SIZE_T_BOUND ≤ c.poly_modulus_degree_ * c.coeff_modulus_size_ →
      c.dataAt i = Except.error TroyError.overflow) ∧
    (∀ (c : Ciphertext) (cap N K : Nat), 2 ≤ cap → SIZE_T_BOUND ≤ cap * N * K →
      c.reserveInternal cap N K = (some TroyError.overflow, c)) ∧
    (∀ (c : Ciphertext) (n N K : Nat), 2 ≤ n → SIZE_T_BOUND ≤ n * N * K →
      c.resizeInternal n N K = (some TroyError.overflow, c)) ∧
    (SIZE_T_BOUND ≤ cBig.poly_modulus_degree_ * cBig.coeff_modulus_size_ ∧
      Ciphertext.sizeCapacity cBig = 2) := by
  refine ⟨?_, ?_, ?_, by decide, by decide⟩
  · intro c i h
    unfold Ciphertext.dataAt
    simp only [mulSafe_ge h]
  · intro c cap N K hcap h
    unfold Ciphertext.reserveInternal
    rw [if_neg (by unfold SEAL_CIPHERTEXT_SIZE_MIN; omega)]
    simp only [mulSafe3_of_overflow h]
  · intro c n N K hn h
    unfold Ciphertext.resizeInternal
    rw [if_neg (by unfold SEAL_CIPHERTEXT_SIZE_MIN; omega)]
    simp only [mulSafe3_of_overflow h]

/-- Witness for amended C5: at `cBig` (product 2 ^ 64 + 2 ^ 33) the polynomial
accessor fails `Overflow`, and an internal reservation of capacity 4 for the
parameter pair (2 ^ 32, 2 ^ 32) fails `Overflow` leaving the state intact. -/
theorem overflowChecks_spec_w :
    Ciphertext.dataAt cBig 0 = Except.error TroyError.overflow ∧
    Ciphertext.reserveInternal Ciphertext.default 4 (2 ^ 32) (2 ^ 32) =
      (some TroyError.overflow, Ciphertext.default) :=
  ⟨overflowChecks_spec.1 cBig 0 (by decide),
    overflowChecks_spec.2.1 Ciphertext.default 4 (2 ^ 32) (2 ^ 32) (by decide) (by decide)⟩

/-! Failure atomicity of reserve and resize. -/

lemma reserveInternal_fail (c : Ciphertext) (cap N K : Nat) (e : TroyError) :
    (c.reserveInternal cap N K).1 = some e → (c.reserveInternal cap N K).2 = c := by
  unfold Ciphertext.reserveInternal
  by_cases hcap : cap < SEAL_CIPHERTEXT_SIZE_MIN
  · rw [if_pos hcap]
    intro h
    rfl
  · rw [if_neg hcap]
    cases heq : mulSafe3 cap N K with
    | error e2 =>
      intro h
      rfl
    | ok v =>
      intro h
      simp at h

lemma resizeInternal_fail (c : Ciphertext) (n N K : Nat) (e : TroyError) :
    (c.resizeInternal n N K).1 = some e → (c.resizeInternal n N K).2 = c := by
  unfold Ciphertext.resizeInternal
  by_cases hn : n < SEAL_CIPHERTEXT_SIZE_MIN
  · rw [if_pos hn]
    intro h
    rfl
  · rw [if_neg hn]
    cases heq : mulSafe3 n N K with
    | error e2 =>
      intro h
      rfl
    | ok v =>
      intro h
      simp at h

lemma reserve_fail (ctx : SEALContext) (pid : ParmsID) (cap : Nat) (c : Ciphertext)
    (e : TroyError) :
    (Ciphertext.reserve ctx pid cap c).1 = some e → (Ciphertext.reserve ctx pid cap c).2 = c := by
  unfold Ciphertext.reserve
  split
  · intro h
    rfl
  · split
    · intro h
      rfl
    · intro h
      simp at h

lemma resize_fail (ctx : SEALContext) (pid : ParmsID) (n : Nat) (c : Ciphertext)
    (e : TroyError) :
    (Ciphertext.resize ctx pid n c).1 = some e → (Ciphertext.resize ctx pid n c).2 = c := by
  unfold Ciphertext.resize
  split
  · intro h
    rfl
  · split
    · intro h
      rfl
    · intro h
      simp at h

/-- Claim C2: every failing reserve or resize call — unknown parameter
identifier, capacity or size below 2, or overflow of the
`capacity * degree * modulus_count` product — leaves the container's entire
observable state (all metadata and the buffer) exactly as it was: validation
happens before any mutation.  Covers the context-directed overloads and the
current-parameter overloads. -/
theorem reserveResize_atomic (ctx : SEALContext) (pid : ParmsID) (arg : Nat)
    (c : Ciphertext) (e : TroyError) :
    ((Ciphertext.reserve ctx pid arg c).1 = some e →
      (Ciphertext.reserve ctx pid arg c).2 = c) ∧
    ((Ciphertext.resize ctx pid arg c).1 = some e →
      (Ciphertext.resize ctx pid arg c).2 = c) ∧
    ((Ciphertext.reserveCur arg c).1 = some e → (Ciphertext.reserveCur arg c).2 = c) ∧
    ((Ciphertext.resizeCur arg c).1 = some e → (Ciphertext.resizeCur arg c).2 = c) :=
  ⟨reserve_fail ctx pid arg c e, resize_fail ctx pid arg c e,
    reserveInternal_fail c arg c.poly_modulus_degree_ c.coeff_modulus_size_ e,
    resizeInternal_fail c arg c.poly_modulus_degree_ c.coeff_modulus_size_ e⟩

/-- Witness for C2, matching the spec's concrete scenario: reserving
capacity 4 for the parameter pair (2 ^ 32, 2 ^ 32) overflows
`capacity * N * K`, the call fails with `Overflow`, and the previously empty
container is unchanged. -/
theorem reserveResize_atomic_w :
    (Ciphertext.reserve ctxBig (1, 0, 0, 0) 4 Ciphertext.default).1 =
      some TroyError.overflow ∧
    (Ciphertext.reserve ctxBig (1, 0, 0, 0) 4 Ciphertext.default).2 = Ciphertext.default :=
  ⟨by decide,
    (reserveResize_atomic ctxBig (1, 0, 0, 0) 4 Ciphertext.default TroyError.overflow).1
      (by decide)⟩

/-! The capacity invariant. -/

/-- Inductive strengthening of the capacity invariant: either the container is
unparameterized (`degree * modulus_count = 0`), or that word count fits the
address-size type and the allocation covers `size` polynomials. -/
def InvP (c : Ciphertext) : Prop :=
  c.polyUint64Count = 0 ∨
    (c.polyUint64Count < SIZE_T_BOUND ∧ c.size_ * c.polyUint64Count ≤ c.data_.cap)

lemma reserveInternal_inv (c : Ciphertext) (cap N K : Nat) (ih : InvP c) :
    InvP (c.reserveInternal cap N K).2 := by
  unfold Ciphertext.reserveInternal
  by_cases hcap : cap < SEAL_CIPHERTEXT_SIZE_MIN
  · rw [if_pos hcap]
    exact ih
  · rw [if_neg hcap]
    cases heq : mulSafe3 cap N K with
    | error e => exact ih
    | ok ndc =>
      obtain ⟨hv, h1, h2⟩ := mulSafe3_eq_ok heq
      subst hv
      by_cases hnk : N * K = 0
      · exact Or.inl hnk
      · right
        have hcap1 : 1 ≤ cap := by unfold SEAL_CIPHERTEXT_SIZE_MIN at hcap; omega
        have hassoc : cap * N * K = cap * (N * K) := by ring
        have hle : N * K ≤ cap * (N * K) := Nat.le_mul_of_pos_left _ (by omega)
        constructor
        · show N * K < SIZE_T_BOUND
          exact lt_of_le_of_lt (hassoc ▸ hle) h2
        · show min cap c.size_ * (N * K) ≤ max c.data_.cap (cap * N * K)
          calc min cap c.size_ * (N * K) ≤ cap * (N * K) :=
                Nat.mul_le_mul_right _ (Nat.min_le_left _ _)
            _ = cap * N * K := (Nat.mul_assoc cap N K).symm
            _ ≤ max c.data_.cap (cap * N * K) := Nat.le_max_right _ _

lemma resizeInternal_inv (c : Ciphertext) (n N K : Nat) (ih : InvP c) :
    InvP (c.resizeInternal n N K).2 := by
  unfold Ciphertext.resizeInternal
  by_cases hn : n < SEAL_CIPHERTEXT_SIZE_MIN
  · rw [if_pos hn]
    exact ih
  · rw [if_neg hn]
    cases heq : mulSafe3 n N K with
    | error e => exact ih
    | ok nds =>
      obtain ⟨hv, h1, h2⟩ := mulSafe3_eq_ok heq
      subst hv
      by_cases hnk : N * K = 0
      · exact Or.inl hnk
      · right
        have hn1 : 1 ≤ n := by unfold SEAL_CIPHERTEXT_SIZE_MIN at hn; omega
        have hassoc : n * N * K = n * (N * K) := by ring
        have hle : N * K ≤ n * (N * K) := Nat.le_mul_of_pos_left _ (by omega)
        constructor
        · show N * K < SIZE_T_BOUND
          exact lt_of_le_of_lt (hassoc ▸ hle) h2
        · show n * (N * K) ≤ max c.data_.cap (n * N * K)
          rw [← hassoc]
          exact Nat.le_max_right _ _

lemma reserve_inv (ctx : SEALContext) (pid : ParmsID) (cap : Nat) (c : Ciphertext)
    (ih : InvP c) : InvP (Ciphertext.reserve ctx pid cap c).2 := by
  unfold Ciphertext.reserve
  cases hq : ctx.lookup pid with
  | none => exact ih
  | some nk =>
    obtain ⟨N, K⟩ := nk
    have hint := reserveInternal_inv c cap N K ih
    show InvP (match c.reserveInternal cap N K with
      | (some e, _) => (some e, c)
      | (none, cNew) => (none, { cNew with parms_id_ := pid })).2
    cases heq : c.reserveInternal cap N K with
    | mk eOpt cNew =>
      rw [heq] at hint
      cases eOpt with
      | some e2 => exact ih
      | none => exact hint

lemma resize_inv (ctx : SEALContext) (pid : ParmsID) (n : Nat) (c : Ciphertext)
    (ih : InvP c) : InvP (Ciphertext.resize ctx pid n c).2 := by
  unfold Ciphertext.resize
  cases hq : ctx.lookup pid with
  | none => exact ih
  | some nk =>
    obtain ⟨N, K⟩ := nk
    have hint := resizeInternal_inv c n N K ih
    show InvP (match c.resizeInternal n N K with
      | (some e, _) => (some e, c)
      | (none, cNew) => (none, { cNew with parms_id_ := pid })).2
    cases heq : c.resizeInternal n N K with
    | mk eOpt cNew =>
      rw [heq] at hint
      cases eOpt with
      | some e2 => exact ih
      | none => exact hint

lemma reachable_inv (c : Ciphertext) (h : Reachable c) : InvP c := by
  induction h with
  | base => exact Or.inl rfl
  | reserveStep ctx pid cap hr ih => exact reserve_inv ctx pid cap _ ih
  | resizeStep ctx pid n hr ih => exact resize_inv ctx pid n _ ih
  | reserveCurStep cap hr ih => exact reserveInternal_inv _ cap _ _ ih
  | resizeCurStep n hr ih => exact resizeInternal_inv _ n _ _ ih
  | releaseStep hr ih => exact Or.inl rfl

/-- Claim C8, counterexample to the claim as stated: resizing a
default-constructed (unparameterized) ciphertext to size 2 through the
no-context overload succeeds and yields a reachable state with `size() = 2`
but `sizeCapacity() = 0`, so `sizeCapacity() >= size()` does not hold in
every reachable state. -/
theorem sizeCapacity_resize_cex :
    (Ciphertext.resizeCur 2 Ciphertext.default).1 = none ∧
    (Ciphertext.resizeCur 2 Ciphertext.default).2.size_ = 2 ∧
    Ciphertext.sizeCapacity (Ciphertext.resizeCur 2 Ciphertext.default).2 = 0 :=
  ⟨by decide, by decide, by decide⟩

/-- Claim C8 as amended: in every state reachable through construction,
reserve, resize, release and copy, either the container is unparameterized
(`degree * modulus_count = 0` — resizing such a container can make `size` at
least 2 while `sizeCapacity()` stays 0) or `sizeCapacity() >= size()`
holds. -/
theorem sizeCapacity_invariant (c : Ciphertext) (h : Reachable c) :
    c.polyUint64Count = 0 ∨ c.size_ ≤ c.sizeCapacity := by
  rcases reachable_inv c h with h0 | ⟨hlt, hle⟩
  · exact Or.inl h0
  · by_cases h0 : c.polyUint64Count = 0
    · exact Or.inl h0
    · right
      have hpc : c.polyUint64Count = c.poly_modulus_degree_ * c.coeff_modulus_size_ := rfl
      rw [hpc] at hlt hle h0
      unfold Ciphertext.sizeCapacity
      rw [Nat.mod_eq_of_lt hlt, if_neg h0]
      exact (Nat.le_div_iff_mul_le (Nat.pos_of_ne_zero h0)).mpr hle

/-- Witness for amended C8 at a state reached by an actual reservation:
after reserving capacity 3 for degree 8 with 2 moduli, the capacity bound
holds (the left disjunct is ruled out concretely). -/
theorem sizeCapacity_invariant_w :
    (Ciphertext.reserve ctx82 (2, 0, 0, 0) 3 Ciphertext.default).2.size_ ≤
      Ciphertext.sizeCapacity (Ciphertext.reserve ctx82 (2, 0, 0, 0) 3 Ciphertext.default).2 :=
  (sizeCapacity_invariant (Ciphertext.reserve ctx82 (2, 0, 0, 0) 3 Ciphertext.default).2
    (Reachable.reserveStep ctx82 (2, 0, 0, 0) 3 Reachable.base)).resolve_left (by decide)

end Troy
